import Mathlib

/-!
Verification of the blog CRUD service (`src/main.py`): a shallow embedding of
the two-table data model (authors, posts) and of the eleven request handlers,
followed by theorems settling the specification claims.

The SQLAlchemy session plus SQLite store is modelled as an explicit `DB`
state threaded through each handler; `HTTPException` is modelled as an
`Except HTTPError` result, and raising it before `commit` leaves the store
unchanged, so every handler returns its result together with the store that
is durable after the request.
-/

namespace BlogAPI

/-- A row of the `authors` table: integer primary key, `name`, `email`
(`src/main.py`, class `Author`). -/
structure Author where
  id : Nat
  name : String
  email : String
deriving DecidableEq, Repr

/-- A row of the `posts` table: integer primary key, `title`, `content`, and
the `author_id` foreign key into `authors` (`src/main.py`, class `Post`). -/
structure Post where
  id : Nat
  title : String
  content : String
  author_id : Nat
deriving DecidableEq, Repr

/-- The durable store: the two tables plus the generators for the integer
primary keys. -/
structure DB where
  authors : List Author
  posts : List Post
  nextAuthorId : Nat
  nextPostId : Nat
deriving DecidableEq, Repr

/-- The store of a freshly created database: both tables empty, primary keys
starting at 1 (SQLite rowids start at 1). -/
def emptyDB : DB := ⟨[], [], 1, 1⟩

/-- An `HTTPException` as raised by the handlers: status code and detail
message. -/
structure HTTPError where
  status : Nat
  detail : String
deriving DecidableEq, Repr

/-- `HTTPException(status_code=400, detail="Email already in use")`,
raised by `create_author` and `update_author`. -/
def emailInUseErr : HTTPError := ⟨400, "Email already in use"⟩

/-- `HTTPException(status_code=400, detail="Author does not exist")`,
raised by `create_post`. -/
def authorMissingErr : HTTPError := ⟨400, "Author does not exist"⟩

/-- `HTTPException(status_code=404, detail="Author not found")`. -/
def authorNotFoundErr : HTTPError := ⟨404, "Author not found"⟩

/-- `HTTPException(status_code=404, detail="Post not found")`. -/
def postNotFoundErr : HTTPError := ⟨404, "Post not found"⟩

/-- The pydantic `AuthorUpdate` schema: both fields optional, absent fields
encoded as `none`. -/
structure AuthorUpdate where
  name : Option String
  email : Option String
deriving DecidableEq, Repr

/-- The pydantic `PostUpdate` schema: both fields optional, absent fields
encoded as `none`. -/
structure PostUpdate where
  title : Option String
  content : Option String
deriving DecidableEq, Repr

/-- The pydantic `PostOut` response schema: the post's fields plus the
optionally attached author. -/
structure PostOut where
  id : Nat
  title : String
  content : String
  author_id : Nat
  author : Option Author
deriving DecidableEq, Repr

/-- `db.query(Author).filter(Author.id == author_id).first()`. -/
def findAuthor (db : DB) (aid : Nat) : Option Author :=
  db.authors.find? (fun a => a.id == aid)

/-- `db.query(Post).filter(Post.id == post_id).first()`. -/
def findPost (db : DB) (pid : Nat) : Option Post :=
  db.posts.find? (fun p => p.id == pid)

/-- Serialization of a post through `PostOut` with `joinedload(Post.author)`:
the author row joined on `posts.author_id = authors.id`. -/
def attachAuthor (db : DB) (p : Post) : PostOut :=
  ⟨p.id, p.title, p.content, p.author_id, findAuthor db p.author_id⟩

/-- `POST /authors` (`create_author`): reject if the email is already in use,
otherwise insert a fresh author row and return it. -/
def create_author (db : DB) (name email : String) :
    Except HTTPError Author × DB :=
  match db.authors.find? (fun a => a.email == email) with
  | some _ => (.error emailInUseErr, db)
  | none =>
      let newAuthor : Author := ⟨db.nextAuthorId, name, email⟩
      (.ok newAuthor,
        { db with authors := db.authors ++ [newAuthor],
                  nextAuthorId := db.nextAuthorId + 1 })

/-- `GET /authors` (`list_authors`): all author rows. -/
def list_authors (db : DB) : List Author × DB :=
  (db.authors, db)

/-- `GET /authors/{author_id}` (`get_author`): the author row or 404. -/
def get_author (db : DB) (aid : Nat) : Except HTTPError Author × DB :=
  match findAuthor db aid with
  | none => (.error authorNotFoundErr, db)
  | some a => (.ok a, db)

/-- `if data.name is not None: author.name = data.name`. -/
def applyName (author : Author) : Option String → Author
  | some n => { author with name := n }
  | none => author

/-- `PUT /authors/{author_id}` (`update_author`): 404 if absent; apply the
supplied name; if an email is supplied, reject when another author row
(different id) holds it, else apply it; commit the updated row. -/
def update_author (db : DB) (aid : Nat) (data : AuthorUpdate) :
    Except HTTPError Author × DB :=
  match findAuthor db aid with
  | none => (.error authorNotFoundErr, db)
  | some author =>
      let author1 := applyName author data.name
      match data.email with
      | some e =>
          match db.authors.find? (fun a => a.email == e && a.id != aid) with
          | some _ => (.error emailInUseErr, db)
          | none =>
              let author2 := { author1 with email := e }
              (.ok author2,
                { db with authors :=
                    db.authors.map (fun a => if a.id == aid then author2 else a) })
      | none =>
          (.ok author1,
            { db with authors :=
                db.authors.map (fun a => if a.id == aid then author1 else a) })

/-- `DELETE /authors/{author_id}` (`delete_author`): 404 if absent; otherwise
delete the author row and, through the `cascade="all, delete-orphan"`
relationship, every post row whose `author_id` is this author's id. -/
def delete_author (db : DB) (aid : Nat) : Except HTTPError String × DB :=
  match findAuthor db aid with
  | none => (.error authorNotFoundErr, db)
  | some _ =>
      (.ok "Author and their posts deleted successfully",
        { db with authors := db.authors.filter (fun a => a.id != aid),
                  posts := db.posts.filter (fun p => p.author_id != aid) })

/-- `POST /posts` (`create_post`): 400 if the referenced author does not
exist; otherwise insert a fresh post row and return it with its author
attached. -/
def create_post (db : DB) (title content : String) (author_id : Nat) :
    Except HTTPError PostOut × DB :=
  match findAuthor db author_id with
  | none => (.error authorMissingErr, db)
  | some _ =>
      let newPost : Post := ⟨db.nextPostId, title, content, author_id⟩
      let db' := { db with posts := db.posts ++ [newPost],
                           nextPostId := db.nextPostId + 1 }
      (.ok (attachAuthor db' newPost), db')

/-- `GET /posts` (`list_posts`): all post rows, restricted to
`Post.author_id == author_id` when the filter is supplied, each serialized
with its author joined in. -/
def list_posts (db : DB) (author_id : Option Nat) : List PostOut × DB :=
  let filtered : List Post := match author_id with
    | some aid => db.posts.filter (fun p => p.author_id == aid)
    | none => db.posts
  (filtered.map (attachAuthor db), db)

/-- `GET /posts/{post_id}` (`get_post`): the post with author attached, or
404. -/
def get_post (db : DB) (pid : Nat) : Except HTTPError PostOut × DB :=
  match findPost db pid with
  | none => (.error postNotFoundErr, db)
  | some p => (.ok (attachAuthor db p), db)

/-- `if data.title is not None: post.title = data.title`. -/
def applyTitle (post : Post) : Option String → Post
  | some t => { post with title := t }
  | none => post

/-- `if data.content is not None: post.content = data.content`. -/
def applyContent (post : Post) : Option String → Post
  | some c => { post with content := c }
  | none => post

/-- `PUT /posts/{post_id}` (`update_post`): 404 if absent; apply the supplied
title and content (only those); commit the updated row. `author_id` is not
touched. -/
def update_post (db : DB) (pid : Nat) (data : PostUpdate) :
    Except HTTPError Post × DB :=
  match findPost db pid with
  | none => (.error postNotFoundErr, db)
  | some post =>
      let post2 := applyContent (applyTitle post data.title) data.content
      (.ok post2,
        { db with posts :=
            db.posts.map (fun p => if p.id == pid then post2 else p) })

/-- `DELETE /posts/{post_id}` (`delete_post`): 404 if absent; otherwise
delete the post row. -/
def delete_post (db : DB) (pid : Nat) : Except HTTPError String × DB :=
  match findPost db pid with
  | none => (.error postNotFoundErr, db)
  | some _ =>
      (.ok "Post deleted successfully",
        { db with posts := db.posts.filter (fun p => p.id != pid) })

/-- `GET /authors/{author_id}/posts` (`get_author_posts`): 404 if the author
does not exist; otherwise that author's posts, each with author attached. -/
def get_author_posts (db : DB) (aid : Nat) :
    Except HTTPError (List PostOut) × DB :=
  match findAuthor db aid with
  | none => (.error authorNotFoundErr, db)
  | some _ =>
      (.ok ((db.posts.filter (fun p => p.author_id == aid)).map (attachAuthor db)),
        db)

/-- One request to the service: the eleven endpoints with their inputs. -/
inductive Op where
  | createAuthor (name email : String)
  | listAuthors
  | getAuthor (aid : Nat)
  | updateAuthor (aid : Nat) (d : AuthorUpdate)
  | deleteAuthor (aid : Nat)
  | createPost (title content : String) (aid : Nat)
  | listPosts (filt : Option Nat)
  | getPost (pid : Nat)
  | updatePost (pid : Nat) (d : PostUpdate)
  | deletePost (pid : Nat)
  | getAuthorPosts (aid : Nat)
deriving DecidableEq, Repr

/-- The store left durable after one request. -/
def applyOp (db : DB) : Op → DB
  | .createAuthor n e => (create_author db n e).2
  | .listAuthors => (list_authors db).2
  | .getAuthor aid => (get_author db aid).2
  | .updateAuthor aid d => (update_author db aid d).2
  | .deleteAuthor aid => (delete_author db aid).2
  | .createPost t c aid => (create_post db t c aid).2
  | .listPosts f => (list_posts db f).2
  | .getPost pid => (get_post db pid).2
  | .updatePost pid d => (update_post db pid d).2
  | .deletePost pid => (delete_post db pid).2
  | .getAuthorPosts aid => (get_author_posts db aid).2

/-- The store after a sequence of requests. -/
def run (db : DB) (ops : List Op) : DB := ops.foldl applyOp db

/-- States reachable from the empty store by some sequence of requests. -/
def Reachable (db : DB) : Prop := ∃ ops : List Op, run emptyDB ops = db

/-- Foreign-key integrity: every stored post's `author_id` is the id of some
stored author. -/
def FKok (db : DB) : Prop :=
  ∀ p ∈ db.posts, ∃ a ∈ db.authors, a.id = p.author_id

/-- `authors.id` is a primary key: stored author ids are pairwise distinct. -/
def AuthorIdsNodup (db : DB) : Prop := (db.authors.map Author.id).Nodup

/-- `posts.id` is a primary key: stored post ids are pairwise distinct. -/
def PostIdsNodup (db : DB) : Prop := (db.posts.map Post.id).Nodup

/-- `authors.email` is unique: stored emails are pairwise distinct. -/
def EmailsNodup (db : DB) : Prop := (db.authors.map Author.email).Nodup

/-! ### Field-level behavior of the partial-update helpers -/

@[simp] theorem applyName_id (a : Author) (o : Option String) :
    (applyName a o).id = a.id := by cases o <;> rfl

@[simp] theorem applyName_email (a : Author) (o : Option String) :
    (applyName a o).email = a.email := by cases o <;> rfl

@[simp] theorem applyName_none (a : Author) : applyName a none = a := rfl

@[simp] theorem applyName_some (a : Author) (n : String) :
    (applyName a (some n)).name = n := rfl

@[simp] theorem applyTitle_id (p : Post) (o : Option String) :
    (applyTitle p o).id = p.id := by cases o <;> rfl

@[simp] theorem applyTitle_author_id (p : Post) (o : Option String) :
    (applyTitle p o).author_id = p.author_id := by cases o <;> rfl

@[simp] theorem applyTitle_content (p : Post) (o : Option String) :
    (applyTitle p o).content = p.content := by cases o <;> rfl

@[simp] theorem applyTitle_none (p : Post) : applyTitle p none = p := rfl

@[simp] theorem applyTitle_some (p : Post) (t : String) :
    (applyTitle p (some t)).title = t := rfl

@[simp] theorem applyContent_id (p : Post) (o : Option String) :
    (applyContent p o).id = p.id := by cases o <;> rfl

@[simp] theorem applyContent_author_id (p : Post) (o : Option String) :
    (applyContent p o).author_id = p.author_id := by cases o <;> rfl

@[simp] theorem applyContent_title (p : Post) (o : Option String) :
    (applyContent p o).title = p.title := by cases o <;> rfl

@[simp] theorem applyContent_none (p : Post) : applyContent p none = p := rfl

@[simp] theorem applyContent_some (p : Post) (c : String) :
    (applyContent p (some c)).content = c := rfl

/-! ### Basic lemmas about the row lookups -/

theorem findAuthor_eq_none_iff {db : DB} {aid : Nat} :
    findAuthor db aid = none ↔ ∀ a ∈ db.authors, a.id ≠ aid := by
  simp [findAuthor]

theorem findAuthor_some_id {db : DB} {aid : Nat} {a : Author}
    (h : findAuthor db aid = some a) : a.id = aid := by
  simpa using List.find?_some h

theorem findAuthor_some_mem {db : DB} {aid : Nat} {a : Author}
    (h : findAuthor db aid = some a) : a ∈ db.authors :=
  List.mem_of_find?_eq_some h

theorem findAuthor_isSome {db : DB} {aid : Nat}
    (h : ∃ a ∈ db.authors, a.id = aid) : ∃ a, findAuthor db aid = some a := by
  obtain ⟨a, ha, haid⟩ := h
  rcases hf : findAuthor db aid with _ | b
  · exact absurd haid (findAuthor_eq_none_iff.1 hf a ha)
  · exact ⟨b, rfl⟩

theorem findPost_eq_none_iff {db : DB} {pid : Nat} :
    findPost db pid = none ↔ ∀ p ∈ db.posts, p.id ≠ pid := by
  simp [findPost]

theorem findPost_some_id {db : DB} {pid : Nat} {p : Post}
    (h : findPost db pid = some p) : p.id = pid := by
  simpa using List.find?_some h

theorem findPost_some_mem {db : DB} {pid : Nat} {p : Post}
    (h : findPost db pid = some p) : p ∈ db.posts :=
  List.mem_of_find?_eq_some h

theorem author_id_inj {db : DB} (h : AuthorIdsNodup db) {x y : Author}
    (hx : x ∈ db.authors) (hy : y ∈ db.authors) (hxy : x.id = y.id) : x = y :=
  List.inj_on_of_nodup_map h hx hy hxy

theorem author_email_inj {db : DB} (h : EmailsNodup db) {x y : Author}
    (hx : x ∈ db.authors) (hy : y ∈ db.authors) (hxy : x.email = y.email) :
    x = y :=
  List.inj_on_of_nodup_map h hx hy hxy

theorem post_id_inj {db : DB} (h : PostIdsNodup db) {x y : Post}
    (hx : x ∈ db.posts) (hy : y ∈ db.posts) (hxy : x.id = y.id) : x = y :=
  List.inj_on_of_nodup_map h hx hy hxy

/-! ### The read handlers leave the store unchanged -/

theorem list_authors_snd (db : DB) : (list_authors db).2 = db := rfl

theorem get_author_snd (db : DB) (aid : Nat) : (get_author db aid).2 = db := by
  unfold get_author; cases findAuthor db aid <;> rfl

theorem list_posts_snd (db : DB) (f : Option Nat) : (list_posts db f).2 = db := rfl

theorem get_post_snd (db : DB) (pid : Nat) : (get_post db pid).2 = db := by
  unfold get_post; cases findPost db pid <;> rfl

theorem get_author_posts_snd (db : DB) (aid : Nat) :
    (get_author_posts db aid).2 = db := by
  unfold get_author_posts; cases findAuthor db aid <;> rfl

/-! ### Preservation of foreign-key integrity by every request -/

theorem fk_of_ids_covered {db : DB} {l : List Author}
    (hl : ∀ a ∈ db.authors, ∃ b ∈ l, b.id = a.id) (h : FKok db) :
    ∀ p ∈ db.posts, ∃ b ∈ l, b.id = p.author_id := by
  intro p hp
  obtain ⟨a, ha, haid⟩ := h p hp
  obtain ⟨b, hb, hbid⟩ := hl a ha
  exact ⟨b, hb, hbid.trans haid⟩

theorem map_replace_covers_ids {authors : List Author} {aid : Nat} {repl : Author}
    (hid : repl.id = aid) :
    ∀ a ∈ authors,
      ∃ b ∈ authors.map (fun x => if x.id == aid then repl else x), b.id = a.id := by
  intro a ha
  refine ⟨if a.id == aid then repl else a, List.mem_map_of_mem _ ha, ?_⟩
  by_cases hc : a.id = aid
  · simp [hc, hid]
  · simp [hc]

theorem FKok_replace_author {db : DB} {aid : Nat} {repl : Author}
    (hid : repl.id = aid) (h : FKok db) :
    FKok { db with
      authors := db.authors.map (fun a => if a.id == aid then repl else a) } := by
  intro p hp
  obtain ⟨a, ha, haid⟩ := h p hp
  obtain ⟨b, hb, hbid⟩ := map_replace_covers_ids hid a ha
  exact ⟨b, hb, hbid.trans haid⟩

theorem FKok_create_author {db : DB} (n e : String) (h : FKok db) :
    FKok (create_author db n e).2 := by
  cases hf : db.authors.find? (fun a => a.email == e) with
  | some a => simp only [create_author, hf]; exact h
  | none =>
      simp only [create_author, hf]
      intro p hp
      obtain ⟨a, ha, haid⟩ := h p hp
      exact ⟨a, List.mem_append_left _ ha, haid⟩

theorem FKok_update_author {db : DB} (aid : Nat) (d : AuthorUpdate) (h : FKok db) :
    FKok (update_author db aid d).2 := by
  cases hfind : findAuthor db aid with
  | none => simp only [update_author, hfind]; exact h
  | some author =>
      have haid : author.id = aid := findAuthor_some_id hfind
      cases hde : d.email with
      | some e =>
          cases hdup : db.authors.find? (fun a => a.email == e && a.id != aid) with
          | some _ => simp only [update_author, hfind, hde, hdup]; exact h
          | none =>
              simp only [update_author, hfind, hde, hdup]
              exact FKok_replace_author (by simp [haid]) h
      | none =>
          simp only [update_author, hfind, hde]
          exact FKok_replace_author (by simp [haid]) h

theorem FKok_delete_author {db : DB} (aid : Nat) (h : FKok db) :
    FKok (delete_author db aid).2 := by
  cases hfind : findAuthor db aid with
  | none => simp only [delete_author, hfind]; exact h
  | some a0 =>
      simp only [delete_author, hfind]
      intro p hp
      rw [List.mem_filter] at hp
      obtain ⟨hp, hpa⟩ := hp
      obtain ⟨a, ha, haid⟩ := h p hp
      refine ⟨a, List.mem_filter.2 ⟨ha, ?_⟩, haid⟩
      simp only [bne_iff_ne] at hpa ⊢
      rw [haid]; exact hpa

theorem FKok_create_post {db : DB} (t c : String) (aid : Nat) (h : FKok db) :
    FKok (create_post db t c aid).2 := by
  cases hfind : findAuthor db aid with
  | none => simp only [create_post, hfind]; exact h
  | some a0 =>
      simp only [create_post, hfind]
      intro p hp
      rcases List.mem_append.1 hp with hp' | hp'
      · exact h p hp'
      · have hpe : p = ⟨db.nextPostId, t, c, aid⟩ := by simpa using hp'
        subst hpe
        exact ⟨a0, findAuthor_some_mem hfind, findAuthor_some_id hfind⟩

theorem FKok_update_post {db : DB} (pid : Nat) (d : PostUpdate) (h : FKok db) :
    FKok (update_post db pid d).2 := by
  cases hfind : findPost db pid with
  | none => simp only [update_post, hfind]; exact h
  | some post =>
      simp only [update_post, hfind]
      intro q hq
      obtain ⟨q0, hq0, hq0eq⟩ := List.mem_map.1 hq
      by_cases hc : q0.id = pid
      · obtain ⟨a, ha, haid⟩ := h post (findPost_some_mem hfind)
        refine ⟨a, ha, ?_⟩
        rw [haid, ← hq0eq]
        simp [hc]
      · obtain ⟨a, ha, haid⟩ := h q0 hq0
        refine ⟨a, ha, ?_⟩
        rw [haid, ← hq0eq]
        simp [hc]

theorem FKok_delete_post {db : DB} (pid : Nat) (h : FKok db) :
    FKok (delete_post db pid).2 := by
  cases hfind : findPost db pid with
  | none => simp only [delete_post, hfind]; exact h
  | some p0 =>
      simp only [delete_post, hfind]
      intro p hp
      rw [List.mem_filter] at hp
      exact h p hp.1

theorem FKok_applyOp {db : DB} (op : Op) (h : FKok db) : FKok (applyOp db op) := by
  cases op with
  | createAuthor n e => exact FKok_create_author n e h
  | listAuthors => exact h
  | getAuthor aid => rw [applyOp, get_author_snd]; exact h
  | updateAuthor aid d => exact FKok_update_author aid d h
  | deleteAuthor aid => exact FKok_delete_author aid h
  | createPost t c aid => exact FKok_create_post t c aid h
  | listPosts f => rw [applyOp, list_posts_snd]; exact h
  | getPost pid => rw [applyOp, get_post_snd]; exact h
  | updatePost pid d => exact FKok_update_post pid d h
  | deletePost pid => exact FKok_delete_post pid h
  | getAuthorPosts aid => rw [applyOp, get_author_posts_snd]; exact h

theorem FKok_run {db : DB} (ops : List Op) (h : FKok db) : FKok (run db ops) := by
  induction ops generalizing db with
  | nil => exact h
  | cons op ops ih => exact ih (FKok_applyOp op h)

theorem FKok_emptyDB : FKok emptyDB := by
  intro p hp
  simp [emptyDB] at hp

/-- Executable form of `FKok`, used to evaluate the invariant on concrete
stores. -/
def FKokB (db : DB) : Bool :=
  db.posts.all (fun p => db.authors.any (fun a => a.id == p.author_id))

theorem FKok_iff {db : DB} : FKok db ↔ FKokB db = true := by
  simp only [FKok, FKokB, List.all_eq_true, List.any_eq_true, beq_iff_eq]

/-- With intact foreign keys, filtering posts on an author id no stored
author carries yields the empty list. -/
theorem filter_author_id_nil {db : DB} {X : Nat}
    (hX : ∀ a ∈ db.authors, a.id ≠ X) (hfk : FKok db) :
    db.posts.filter (fun p => p.author_id == X) = [] := by
  refine List.filter_eq_nil_iff.2 ?_
  intro p hp
  simp only [beq_iff_eq]
  intro hx
  obtain ⟨a, ha, haid⟩ := hfk p hp
  exact hX a ha (haid.trans hx)

/-- Membership in the author-filtered, author-attached post listing. -/
theorem mem_filtered_attach {db : DB} {X : Nat} {po : PostOut} :
    po ∈ (db.posts.filter (fun p => p.author_id == X)).map (attachAuthor db) ↔
    ∃ p ∈ db.posts, p.author_id = X ∧ po = attachAuthor db p := by
  constructor
  · intro hpo
    obtain ⟨p, hp, hpeq⟩ := List.mem_map.1 hpo
    obtain ⟨hpmem, hpx⟩ := List.mem_filter.1 hp
    exact ⟨p, hpmem, by simpa using hpx, hpeq.symm⟩
  · rintro ⟨p, hpmem, hpx, rfl⟩
    exact List.mem_map_of_mem _ (List.mem_filter.2 ⟨hpmem, by simp [hpx]⟩)

/-! ### A small concrete run, used to instantiate the theorems -/

/-- The example run of spec §8: create Ada, then one post owned by Ada. -/
def opsW : List Op := [.createAuthor "Ada" "ada@x.io", .createPost "Hi" "World" 1]

/-- The store reached by `opsW`. -/
def dbW : DB := run emptyDB opsW

/-- A second store: Ada and Bob, with one post each. -/
def dbW2 : DB :=
  run emptyDB [.createAuthor "Ada" "ada@x.io", .createAuthor "Bob" "bob@x.io",
    .createPost "Hi" "World" 1, .createPost "Yo" "There" 2]

/-! ### The claims -/

/-- C10: every read operation — ListAuthors, GetAuthor, ListPosts (with or
without an author_id filter), GetPost, and ListPostsForAuthor — leaves the
stored Authors and Posts completely unchanged, on both its success and its
NotFound paths. -/
theorem reads_leave_store_unchanged (db : DB) (aid pid : Nat)
    (filt : Option Nat) :
    (list_authors db).2 = db ∧ (get_author db aid).2 = db ∧
    (list_posts db filt).2 = db ∧ (get_post db pid).2 = db ∧
    (get_author_posts db aid).2 = db :=
  ⟨list_authors_snd db, get_author_snd db aid, list_posts_snd db filt,
   get_post_snd db pid, get_author_posts_snd db aid⟩

/-- C2: in every state reachable from the empty store by any sequence of the
service's operations, every stored Post's author_id equals the id of some
stored Author. -/
theorem foreign_key_invariant (db : DB) (h : Reachable db) : FKok db := by
  obtain ⟨ops, rfl⟩ := h
  exact FKok_run ops FKok_emptyDB

/-- Witness for C2 at the concrete run `opsW`. -/
theorem foreign_key_invariant_witness : FKok dbW :=
  foreign_key_invariant dbW ⟨opsW, rfl⟩

/-- C1: DeleteAuthor(X) fails with NotFound (changing nothing) when no author
has id X; otherwise it returns the success acknowledgment and, in the same
operation, removes the author and exactly the posts whose author_id is X
(other rows survive), and GetPost on each removed post id subsequently fails
with NotFound. -/
theorem deleteAuthor_cascades (db : DB) (aid : Nat) :
    (findAuthor db aid = none →
      delete_author db aid = (.error authorNotFoundErr, db)) ∧
    (∀ a, findAuthor db aid = some a →
      (delete_author db aid).1 =
        .ok "Author and their posts deleted successfully" ∧
      (∀ b ∈ (delete_author db aid).2.authors, b.id ≠ aid) ∧
      (get_author (delete_author db aid).2 aid).1 = .error authorNotFoundErr ∧
      (∀ b ∈ db.authors, b.id ≠ aid → b ∈ (delete_author db aid).2.authors) ∧
      (∀ p ∈ (delete_author db aid).2.posts, p.author_id ≠ aid) ∧
      (∀ p ∈ db.posts, p.author_id ≠ aid → p ∈ (delete_author db aid).2.posts) ∧
      (PostIdsNodup db → ∀ p ∈ db.posts, p.author_id = aid →
        (get_post (delete_author db aid).2 p.id).1 = .error postNotFoundErr)) := by
  constructor
  · intro hfind
    simp only [delete_author, hfind]
  · intro a hfind
    simp only [delete_author, hfind]
    have hauth : ∀ b ∈ db.authors.filter (fun x => x.id != aid), b.id ≠ aid := by
      intro b hb
      have := (List.mem_filter.1 hb).2
      simpa [bne_iff_ne] using this
    have hnof : findAuthor
        { db with authors := db.authors.filter (fun x => x.id != aid),
                  posts := db.posts.filter (fun p => p.author_id != aid) }
        aid = none :=
      findAuthor_eq_none_iff.2 hauth
    refine ⟨by trivial, hauth, ?_, ?_, ?_, ?_, ?_⟩
    · simp [get_author, hnof]
    · intro b hb hbne
      exact List.mem_filter.2 ⟨hb, by simpa [bne_iff_ne] using hbne⟩
    · intro p hp
      have := (List.mem_filter.1 hp).2
      simpa [bne_iff_ne] using this
    · intro p hp hpne
      exact List.mem_filter.2 ⟨hp, by simpa [bne_iff_ne] using hpne⟩
    · intro hnodup p hp hpid
      have hnop : findPost
          { db with authors := db.authors.filter (fun x => x.id != aid),
                    posts := db.posts.filter (fun q => q.author_id != aid) }
          p.id = none := by
        refine findPost_eq_none_iff.2 ?_
        intro q hq
        have hqmem := (List.mem_filter.1 hq).1
        have hqne : q.author_id ≠ aid := by
          have := (List.mem_filter.1 hq).2
          simpa [bne_iff_ne] using this
        intro hqid
        exact hqne (by rw [post_id_inj hnodup hqmem hp hqid, hpid])
      simp [get_post, hnop]

/-- Witness for C1: deleting Ada from `dbW` cascades to her post. -/
theorem deleteAuthor_cascades_witness :
    (delete_author dbW 1).1 =
      .ok "Author and their posts deleted successfully" ∧
    (get_post (delete_author dbW 1).2 1).1 = .error postNotFoundErr := by
  have h := (deleteAuthor_cascades dbW 1).2 ⟨1, "Ada", "ada@x.io"⟩ (by decide)
  exact ⟨h.1, h.2.2.2.2.2.2 (by unfold PostIdsNodup; decide)
    ⟨1, "Hi", "World", 1⟩ (by decide) rfl⟩

/-- C3: CreateAuthor fails with Conflict (store unchanged) whenever some
stored author already holds the email and otherwise creates and returns the
new author; UpdateAuthor with an email supplied fails with Conflict (store
unchanged) when another stored author — one with a different id — holds that
email, succeeds when no such other author exists, and in particular
updating an author's email to its own current value succeeds when stored
emails are unique. -/
theorem email_uniqueness_spec (db : DB) (name email : String) (aid : Nat)
    (d : AuthorUpdate) :
    ((∃ a ∈ db.authors, a.email = email) →
      create_author db name email = (.error emailInUseErr, db)) ∧
    ((∀ a ∈ db.authors, a.email ≠ email) →
      (create_author db name email).1 = .ok ⟨db.nextAuthorId, name, email⟩ ∧
      (create_author db name email).2.authors =
        db.authors ++ [⟨db.nextAuthorId, name, email⟩]) ∧
    (∀ author e, findAuthor db aid = some author → d.email = some e →
      ((∃ a ∈ db.authors, a.email = e ∧ a.id ≠ aid) →
        update_author db aid d = (.error emailInUseErr, db)) ∧
      ((∀ a ∈ db.authors, a.email = e → a.id = aid) →
        (update_author db aid d).1 =
          .ok { applyName author d.name with email := e })) ∧
    (∀ author, EmailsNodup db → findAuthor db aid = some author →
      d.email = some author.email →
      (update_author db aid d).1 =
        .ok { applyName author d.name with email := author.email }) := by
  have hnoconf : ∀ e : String, (∀ a ∈ db.authors, a.email = e → a.id = aid) →
      db.authors.find? (fun a => a.email == e && a.id != aid) = none := by
    intro e he
    refine List.find?_eq_none.2 ?_
    intro x hx
    simp only [Bool.and_eq_true, beq_iff_eq, bne_iff_ne, not_and]
    intro hxe hxne
    exact hxne (he x hx hxe)
  refine ⟨?_, ?_, ?_, ?_⟩
  · rintro ⟨a, ha, hae⟩
    have hsome : (db.authors.find? (fun x => x.email == email)).isSome :=
      List.find?_isSome.2 ⟨a, ha, by simp [hae]⟩
    rcases hf : db.authors.find? (fun x => x.email == email) with _ | b
    · rw [hf] at hsome; simp at hsome
    · simp only [create_author, hf]
  · intro hnone
    have hf : db.authors.find? (fun x => x.email == email) = none :=
      List.find?_eq_none.2 (fun x hx => by simp [hnone x hx])
    simp only [create_author, hf]
    exact ⟨by trivial, by trivial⟩
  · intro author e hfind hde
    constructor
    · rintro ⟨a, ha, hae, hane⟩
      have hsome :
          (db.authors.find? (fun x => x.email == e && x.id != aid)).isSome :=
        List.find?_isSome.2 ⟨a, ha, by simp [hae, bne_iff_ne, hane]⟩
      rcases hf : db.authors.find? (fun x => x.email == e && x.id != aid)
        with _ | b
      · rw [hf] at hsome; simp at hsome
      · simp only [update_author, hfind, hde, hf]
    · intro he
      simp only [update_author, hfind, hde, hnoconf e he]
  · intro author hnodup hfind hde
    have he : ∀ a ∈ db.authors, a.email = author.email → a.id = aid := by
      intro a ha hae
      rw [author_email_inj hnodup ha (findAuthor_some_mem hfind) hae]
      exact findAuthor_some_id hfind
    simp only [update_author, hfind, hde, hnoconf author.email he]

/-- Witness for C3 at `dbW2`: a duplicate email is rejected, and Bob can
re-submit his own email. -/
theorem email_uniqueness_spec_witness :
    create_author dbW2 "Eve" "ada@x.io" = (.error emailInUseErr, dbW2) ∧
    (update_author dbW2 2 ⟨none, some "bob@x.io"⟩).1 =
      .ok ⟨2, "Bob", "bob@x.io"⟩ := by
  have h := email_uniqueness_spec dbW2 "Eve" "ada@x.io" 2 ⟨none, some "bob@x.io"⟩
  refine ⟨h.1 ⟨⟨1, "Ada", "ada@x.io"⟩, by decide, rfl⟩, ?_⟩
  have h4 := h.2.2.2 ⟨2, "Bob", "bob@x.io"⟩ (by unfold EmailsNodup; decide)
    (by decide) rfl
  simpa using h4

/-- C4: CreatePost fails with ValidationError and persists nothing when the
author_id references no stored author; otherwise it appends exactly the new
post, leaves the authors unchanged, and returns the post with its author's
data attached. -/
theorem createPost_validation_spec (db : DB) (title content : String)
    (aid : Nat) :
    (findAuthor db aid = none →
      create_post db title content aid = (.error authorMissingErr, db)) ∧
    (∀ a, findAuthor db aid = some a →
      (create_post db title content aid).1 =
        .ok ⟨db.nextPostId, title, content, aid, some a⟩ ∧
      (create_post db title content aid).2.posts =
        db.posts ++ [⟨db.nextPostId, title, content, aid⟩] ∧
      (create_post db title content aid).2.authors = db.authors) := by
  constructor
  · intro hfind; simp only [create_post, hfind]
  · intro a hfind
    simp only [create_post, hfind]
    refine ⟨?_, by trivial, by trivial⟩
    simp only [attachAuthor, findAuthor] at hfind ⊢
    rw [hfind]

/-- Witness for C4: creating a post for Ada in `dbW` returns it with Ada
attached. -/
theorem createPost_validation_spec_witness :
    (create_post dbW "T" "C" 1).1 =
      .ok ⟨2, "T", "C", 1, some ⟨1, "Ada", "ada@x.io"⟩⟩ := by
  have h := (createPost_validation_spec dbW "T" "C" 1).2
    ⟨1, "Ada", "ada@x.io"⟩ (by decide)
  exact h.1

/-- C5: UpdateAuthor and UpdatePost modify only the fields supplied in the
partial and leave every omitted field unchanged; an empty partial succeeds
and leaves the store exactly as it was; and UpdatePost never changes any
stored post's author_id. -/
theorem partial_update_spec (db : DB) (aid pid : Nat) (d : AuthorUpdate)
    (dp : PostUpdate) :
    (∀ a, AuthorIdsNodup db → findAuthor db aid = some a →
      update_author db aid ⟨none, none⟩ = (.ok a, db)) ∧
    (∀ p, PostIdsNodup db → findPost db pid = some p →
      update_post db pid ⟨none, none⟩ = (.ok p, db)) ∧
    (∀ a a', findAuthor db aid = some a →
      (update_author db aid d).1 = .ok a' →
      a'.id = a.id ∧
      (d.name = none → a'.name = a.name) ∧
      (∀ n, d.name = some n → a'.name = n) ∧
      (d.email = none → a'.email = a.email) ∧
      (∀ e, d.email = some e → a'.email = e) ∧
      (update_author db aid d).2.posts = db.posts ∧
      (∀ b ∈ db.authors, b.id ≠ aid →
        b ∈ (update_author db aid d).2.authors)) ∧
    (∀ p p', findPost db pid = some p →
      (update_post db pid dp).1 = .ok p' →
      p'.id = p.id ∧ p'.author_id = p.author_id ∧
      (dp.title = none → p'.title = p.title) ∧
      (∀ t, dp.title = some t → p'.title = t) ∧
      (dp.content = none → p'.content = p.content) ∧
      (∀ c, dp.content = some c → p'.content = c) ∧
      (update_post db pid dp).2.authors = db.authors ∧
      (∀ q ∈ db.posts, q.id ≠ pid → q ∈ (update_post db pid dp).2.posts)) ∧
    (∀ q' ∈ (update_post db pid dp).2.posts,
      ∃ q ∈ db.posts, q'.author_id = q.author_id) := by
  refine ⟨?_, ?_, ?_, ?_, ?_⟩
  · intro a hnodup hfind
    simp only [update_author, hfind, applyName_none]
    have hpt : ∀ x ∈ db.authors, (if x.id == aid then a else x) = x := by
      intro x hx
      by_cases hc : x.id = aid
      · have hxa : x = a := author_id_inj hnodup hx (findAuthor_some_mem hfind)
          (by rw [hc, findAuthor_some_id hfind])
        simp [hc, hxa]
      · simp [hc]
    have hmap : db.authors.map (fun x => if x.id == aid then a else x) =
        db.authors :=
      (List.map_congr_left hpt).trans (List.map_id' db.authors)
    rw [hmap]
  · intro p hnodup hfind
    simp only [update_post, hfind, applyTitle_none, applyContent_none]
    have hpt : ∀ x ∈ db.posts, (if x.id == pid then p else x) = x := by
      intro x hx
      by_cases hc : x.id = pid
      · have hxp : x = p := post_id_inj hnodup hx (findPost_some_mem hfind)
          (by rw [hc, findPost_some_id hfind])
        simp [hc, hxp]
      · simp [hc]
    have hmap : db.posts.map (fun x => if x.id == pid then p else x) =
        db.posts :=
      (List.map_congr_left hpt).trans (List.map_id' db.posts)
    rw [hmap]
  · intro a a' hfind hok
    rcases hde : d.email with _ | e
    · simp only [update_author, hfind, hde, Except.ok.injEq] at hok
      subst hok
      refine ⟨by simp, ?_, ?_, by simp, ?_, by simp only [update_author, hfind, hde], ?_⟩
      · intro hdn; simp [hdn]
      · intro n hdn; simp [hdn]
      · intro e hcontra; cases hcontra
      · intro b hb hbne
        simp only [update_author, hfind, hde]
        have := List.mem_map_of_mem
          (fun x => if x.id == aid then applyName a d.name else x) hb
        simpa [hbne] using this
    · rcases hf : db.authors.find? (fun x => x.email == e && x.id != aid)
        with _ | b
      · simp only [update_author, hfind, hde, hf, Except.ok.injEq] at hok
        subst hok
        refine ⟨by simp, ?_, ?_, ?_, ?_,
          by simp only [update_author, hfind, hde, hf], ?_⟩
        · intro hdn; simp [hdn]
        · intro n hdn; simp [hdn]
        · intro hcontra; cases hcontra
        · intro e' he'
          have he'' : e = e' := by injection he'
          rw [← he'']
        · intro b' hb' hbne
          simp only [update_author, hfind, hde, hf]
          have := List.mem_map_of_mem
            (fun x => if x.id == aid then
              { applyName a d.name with email := e } else x) hb'
          simpa [hbne] using this
      · simp only [update_author, hfind, hde, hf] at hok
        cases hok
  · intro p p' hfind hok
    simp only [update_post, hfind, Except.ok.injEq] at hok
    subst hok
    refine ⟨by simp, by simp, ?_, ?_, ?_, ?_,
      by simp only [update_post, hfind], ?_⟩
    · intro h; simp [h]
    · intro t h; simp [h]
    · intro h; simp [h]
    · intro c h; simp [h]
    · intro q hq hqne
      simp only [update_post, hfind]
      have := List.mem_map_of_mem
        (fun x => if x.id == pid then
          applyContent (applyTitle p dp.title) dp.content else x) hq
      simpa [hqne] using this
  · intro q' hq'
    rcases hfind : findPost db pid with _ | p
    · simp only [update_post, hfind] at hq'
      exact ⟨q', hq', rfl⟩
    · simp only [update_post, hfind] at hq'
      obtain ⟨q0, hq0, hq0eq⟩ := List.mem_map.1 hq'
      by_cases hc : q0.id = pid
      · refine ⟨p, findPost_some_mem hfind, ?_⟩
        rw [← hq0eq]; simp [hc]
      · refine ⟨q0, hq0, ?_⟩
        rw [← hq0eq]; simp [hc]

/-- Witness for C5: empty partial updates on `dbW` succeed and change
nothing. -/
theorem partial_update_spec_witness :
    update_author dbW 1 ⟨none, none⟩ = (.ok ⟨1, "Ada", "ada@x.io"⟩, dbW) ∧
    update_post dbW 1 ⟨none, none⟩ = (.ok ⟨1, "Hi", "World", 1⟩, dbW) := by
  have h := partial_update_spec dbW 1 1 ⟨none, none⟩ ⟨none, none⟩
  exact ⟨h.1 ⟨1, "Ada", "ada@x.io"⟩ (by unfold AuthorIdsNodup; decide)
      (by decide),
    h.2.1 ⟨1, "Hi", "World", 1⟩ (by unfold PostIdsNodup; decide) (by decide)⟩

/-- C6: ListPosts(author_id=X) returns exactly the stored posts whose
author_id equals X, each with its author's full data attached, and — with
foreign keys intact — returns the empty list (not an error) when no stored
author has id X; ListPosts with no filter returns all posts with authors
attached. -/
theorem listPosts_filter_spec (db : DB) (X : Nat) :
    (∀ po, po ∈ (list_posts db (some X)).1 ↔
      ∃ p ∈ db.posts, p.author_id = X ∧ po = attachAuthor db p) ∧
    (FKok db → ∀ po ∈ (list_posts db (some X)).1,
      ∃ a ∈ db.authors, po.author = some a ∧ a.id = po.author_id) ∧
    ((∀ a ∈ db.authors, a.id ≠ X) → FKok db →
      (list_posts db (some X)).1 = []) ∧
    (list_posts db none).1 = db.posts.map (attachAuthor db) := by
  simp only [list_posts]
  refine ⟨?_, ?_, ?_, by trivial⟩
  · intro po
    exact mem_filtered_attach
  · intro hfk po hpo
    obtain ⟨p, hpmem, hpx, hpoeq⟩ := mem_filtered_attach.1 hpo
    obtain ⟨a0, ha0, haid0⟩ := hfk p hpmem
    obtain ⟨b, hb⟩ := findAuthor_isSome ⟨a0, ha0, haid0⟩
    refine ⟨b, findAuthor_some_mem hb, ?_, ?_⟩
    · rw [hpoeq]; simpa [attachAuthor] using hb
    · rw [hpoeq]; simpa [attachAuthor] using findAuthor_some_id hb
  · intro hX hfk
    rw [filter_author_id_nil hX hfk]
    rfl

/-- Witness for C6: filtering `dbW2` on the unknown author id 99 yields the
empty list. -/
theorem listPosts_filter_spec_witness : (list_posts dbW2 (some 99)).1 = [] :=
  (listPosts_filter_spec dbW2 99).2.2.1 (by decide) (FKok_iff.2 (by decide))

/-- C7: ListPostsForAuthor(X) fails with NotFound when no stored author has
id X — even though ListPosts(author_id=X) returns an empty list for the same
X — and when author X exists it returns exactly X's posts, each with the
author's full data attached. -/
theorem authorPosts_notFound_spec (db : DB) (X : Nat) :
    (findAuthor db X = none →
      get_author_posts db X = (.error authorNotFoundErr, db) ∧
      (FKok db → (list_posts db (some X)).1 = [])) ∧
    (∀ a, findAuthor db X = some a →
      ∃ l, (get_author_posts db X).1 = .ok l ∧
        (∀ po, po ∈ l ↔
          ∃ p ∈ db.posts, p.author_id = X ∧ po = attachAuthor db p) ∧
        (∀ po ∈ l, po.author = some a)) := by
  constructor
  · intro hfind
    refine ⟨by simp only [get_author_posts, hfind], ?_⟩
    intro hfk
    simp only [list_posts]
    rw [filter_author_id_nil (findAuthor_eq_none_iff.1 hfind) hfk]
    rfl
  · intro a hfind
    refine ⟨(db.posts.filter (fun p => p.author_id == X)).map (attachAuthor db),
      by simp only [get_author_posts, hfind], ?_, ?_⟩
    · intro po
      exact mem_filtered_attach
    · intro po hpo
      obtain ⟨p, hpmem, hpx, hpoeq⟩ := mem_filtered_attach.1 hpo
      rw [hpoeq]
      simpa [attachAuthor, hpx] using hfind

/-- Witness for C7: author id 99 is 404 on the nested route while the
filtered listing is empty; Ada's nested route returns her post with her
data attached. -/
theorem authorPosts_notFound_spec_witness :
    get_author_posts dbW2 99 = (.error authorNotFoundErr, dbW2) ∧
    (∃ l, (get_author_posts dbW2 1).1 = .ok l ∧
      ∀ po ∈ l, po.author = some ⟨1, "Ada", "ada@x.io"⟩) := by
  constructor
  · exact ((authorPosts_notFound_spec dbW2 99).1 (by decide)).1
  · obtain ⟨l, hl, _, hatt⟩ := (authorPosts_notFound_spec dbW2 1).2
      ⟨1, "Ada", "ada@x.io"⟩ (by decide)
    exact ⟨l, hl, hatt⟩

/-- C8 counterexample: a Conflict failure (duplicate email on CreateAuthor)
and a ValidationError failure (unknown author on CreatePost) are reported
with the same status 400, so the three failure kinds are not pairwise
distinguished by status/category. -/
theorem error_status_counterexample :
    (create_author dbW2 "Eve" "ada@x.io").1 = .error emailInUseErr ∧
    (create_post dbW2 "T" "C" 99).1 = .error authorMissingErr ∧
    emailInUseErr.status = authorMissingErr.status :=
  ⟨rfl, rfl, rfl⟩

/-- C8 amended: NotFound is reported with status 404, distinct from Conflict
and ValidationError, which both use status 400 and are told apart only by
their detail messages; the three reported (status, detail) failures are
pairwise distinct. -/
theorem error_reporting_amended (db : DB) (name email title content : String)
    (aid : Nat) :
    ((∃ a ∈ db.authors, a.email = email) →
      (create_author db name email).1 = .error emailInUseErr) ∧
    (findAuthor db aid = none →
      (create_post db title content aid).1 = .error authorMissingErr ∧
      (get_author db aid).1 = .error authorNotFoundErr) ∧
    emailInUseErr.status = 400 ∧ authorMissingErr.status = 400 ∧
    authorNotFoundErr.status = 404 ∧
    emailInUseErr ≠ authorMissingErr ∧
    emailInUseErr ≠ authorNotFoundErr ∧
    authorMissingErr ≠ authorNotFoundErr := by
  refine ⟨?_, ?_, rfl, rfl, rfl, by decide, by decide, by decide⟩
  · rintro ⟨a, ha, hae⟩
    have hsome : (db.authors.find? (fun x => x.email == email)).isSome :=
      List.find?_isSome.2 ⟨a, ha, by simp [hae]⟩
    rcases hf : db.authors.find? (fun x => x.email == email) with _ | b
    · rw [hf] at hsome; simp at hsome
    · simp only [create_author, hf]
  · intro hfind
    exact ⟨by simp only [create_post, hfind], by simp only [get_author, hfind]⟩

/-- Witness for the amended C8 at `dbW2`. -/
theorem error_reporting_amended_witness :
    (create_author dbW2 "Eve" "ada@x.io").1 = .error emailInUseErr ∧
    (create_post dbW2 "T" "C" 99).1 = .error authorMissingErr := by
  have h := error_reporting_amended dbW2 "Eve" "ada@x.io" "T" "C" 99
  exact ⟨h.1 ⟨⟨1, "Ada", "ada@x.io"⟩, by decide, rfl⟩, (h.2.1 (by decide)).1⟩

/-- C9 counterexample: a state holding an author with an empty name and a
post with an empty title is reachable — the service accepts and persists
them. -/
theorem nonempty_text_counterexample :
    ((run emptyDB [.createAuthor "" "e@x.io", .createPost "" "c" 1]).authors.any
      (fun a => a.name == "")) = true ∧
    ((run emptyDB [.createAuthor "" "e@x.io", .createPost "" "c" 1]).posts.any
      (fun p => p.title == "")) = true :=
  ⟨by decide, by decide⟩

/-- C9 amended: name and title are required fields, but their content is not
validated: CreateAuthor and CreatePost accept and persist the empty string
for them, so reachable states may store authors with empty names and posts
with empty titles. -/
theorem name_title_not_validated (db : DB) (email content : String)
    (aid : Nat) :
    ((∀ a ∈ db.authors, a.email ≠ email) →
      (create_author db "" email).1 = .ok ⟨db.nextAuthorId, "", email⟩ ∧
      ⟨db.nextAuthorId, "", email⟩ ∈ (create_author db "" email).2.authors) ∧
    (∀ a, findAuthor db aid = some a →
      (create_post db "" content aid).1 =
        .ok ⟨db.nextPostId, "", content, aid, some a⟩ ∧
      ⟨db.nextPostId, "", content, aid⟩ ∈
        (create_post db "" content aid).2.posts) := by
  constructor
  · intro hnone
    have hf : db.authors.find? (fun x => x.email == email) = none :=
      List.find?_eq_none.2 (fun x hx => by simp [hnone x hx])
    simp only [create_author, hf]
    exact ⟨by trivial, by simp⟩
  · intro a hfind
    simp only [create_post, hfind]
    refine ⟨?_, by simp⟩
    simp only [attachAuthor, findAuthor] at hfind ⊢
    rw [hfind]

/-- Witness for the amended C9: empty name and empty title are persisted. -/
theorem name_title_not_validated_witness :
    (create_author emptyDB "" "e@x.io").1 = .ok ⟨1, "", "e@x.io"⟩ ∧
    (create_post dbW "" "c" 1).1 =
      .ok ⟨2, "", "c", 1, some ⟨1, "Ada", "ada@x.io"⟩⟩ := by
  have h1 := (name_title_not_validated emptyDB "e@x.io" "c" 1).1 (by decide)
  have h2 := (name_title_not_validated dbW "e@x.io" "c" 1).2
    ⟨1, "Ada", "ada@x.io"⟩ (by decide)
  exact ⟨h1.1, h2.1⟩

end BlogAPI
